import Mathlib

/-!
Shallow embedding of `src/example.rs`: a phantom-typed length library.
The Rust `Length<T>` struct stores a single `i64` nanometer magnitude; the unit
type parameter `T` supplies a display name and a nanometer scale through
the `LengthUnit` trait.  In this model machine integers are `Int` with an
explicit reduction into the signed 64-bit range (`wrap64`) wherever Rust
arithmetic wraps (the release-profile wraparound semantics that the spec
designates as the reference behavior), and `f64` values are idealised as
exact rationals, with the saturating Rust `as i64` cast modelled by `sat64`.
-/

namespace LengthArith

/-- Trait `LengthUnit` of `src/example.rs`: a unit descriptor supplying a
singular display name and the number of nanometers in one unit. -/
structure LengthUnit where
  singular_name : String
  num_nm_in_unit : Int
deriving DecidableEq

/-- Unit from `NewLength!(Meters, "meter", 1_000_000_000)`. -/
def Meters : LengthUnit := ⟨"meter", 1000000000⟩

/-- Unit from `NewLength!(Millimeters, "millimeter", 1_000_000)`. -/
def Millimeters : LengthUnit := ⟨"millimeter", 1000000⟩

/-- Unit from `NewLength!(Kilometers, "kilometer", 1_000_000_000_000)`. -/
def Kilometers : LengthUnit := ⟨"kilometer", 1000000000000⟩

/-- Struct `Length<T>` of `src/example.rs`: the only runtime field is the
`i64` nanometer magnitude `nm`; the unit is a phantom parameter. -/
structure Length (T : LengthUnit) where
  nm : Int
deriving DecidableEq

/-- Smallest `i64` value. -/
def i64min : Int := -(2 ^ 63)

/-- Largest `i64` value. -/
def i64max : Int := 2 ^ 63 - 1

/-- Predicate: `x` is representable as an `i64`. -/
def InI64 (x : Int) : Prop := i64min ≤ x ∧ x ≤ i64max

instance (x : Int) : Decidable (InI64 x) := by unfold InI64; infer_instance

/-- Reduction of an integer into the signed 64-bit range by
wraparound modulo 2 ^ 64, the behavior of overflowing Rust `i64`
arithmetic in release profile. -/
def wrap64 (x : Int) : Int := (x + 2 ^ 63) % 2 ^ 64 - 2 ^ 63

/-- Truncation of a rational toward zero (ceiling for negative values,
floor otherwise), the rounding used by the Rust float-to-integer `as`
cast. -/
def ratTrunc (q : ℚ) : Int := if q < 0 then ⌈q⌉ else ⌊q⌋

/-- Model of the Rust `f64 as i64` cast: truncate toward zero, then
saturate to the `i64` range. -/
def sat64 (q : ℚ) : Int :=
  if ratTrunc q < i64min then i64min
  else if i64max < ratTrunc q then i64max
  else ratTrunc q

/-- Impl `From<i64> for Length<T>` (macro `ImplFromLengthUnit!(i64)`):
`nm = (n as i64) * T::num_nm_in_unit()`. -/
def from_i64 (T : LengthUnit) (n : Int) : Length T :=
  ⟨wrap64 (n * T.num_nm_in_unit)⟩

/-- Impl `From<f64> for Length<T>` (macro `ImplFromLengthUnit!(f64)`):
`nm = (n as i64) * T::num_nm_in_unit()` where `n as i64` saturates. -/
def from_f64 (T : LengthUnit) (n : ℚ) : Length T :=
  ⟨wrap64 (sat64 n * T.num_nm_in_unit)⟩

/-- Impl `From<Length<T>> for f64`: `(l.nm as f64) / (scale as f64)`,
idealised over exact rationals. -/
def to_f64 {T : LengthUnit} (l : Length T) : ℚ :=
  (l.nm : ℚ) / (T.num_nm_in_unit : ℚ)

/-- Impl `From<Length<T>> for i64`: the `f64` quotient cast back with
`as i64`. -/
def to_i64 {T : LengthUnit} (l : Length T) : Int :=
  sat64 (to_f64 l)

/-- Impl `From<&Length<T1>> for Length<T2>`: relabeling copies `nm`
verbatim. -/
def relabel {T1 : LengthUnit} (T2 : LengthUnit) (l : Length T1) : Length T2 :=
  ⟨l.nm⟩

/-- Impl `Add<Length<T2>> for Length<T1>`: `nm = self.nm + other.nm`,
output tagged with the unit of the left operand. -/
def Length.add {T1 T2 : LengthUnit} (self : Length T1) (other : Length T2) :
    Length T1 :=
  ⟨wrap64 (self.nm + other.nm)⟩

/-- Impl `Sub<Length<T2>> for Length<T1>`: `nm = self.nm - other.nm`,
output tagged with the unit of the left operand. -/
def Length.sub {T1 T2 : LengthUnit} (self : Length T1) (other : Length T2) :
    Length T1 :=
  ⟨wrap64 (self.nm - other.nm)⟩

/-- Impl `Div<Length<T2>> for Length<T1>`: the dimensionless `f64` ratio
`(self.nm as f64) / (other.nm as f64)`, idealised over rationals. -/
def Length.divLength {T1 T2 : LengthUnit} (self : Length T1)
    (other : Length T2) : ℚ :=
  (self.nm : ℚ) / (other.nm : ℚ)

/-- Impl `Mul<i64> for Length<T>` (macro `ImplMulandDivLengthAndNum!(i64)`):
`nm = (self.nm * other) as i64`. -/
def Length.mul_i64 {T : LengthUnit} (self : Length T) (other : Int) :
    Length T :=
  ⟨wrap64 (self.nm * other)⟩

/-- Impl `Mul<Length<T>> for i64`: `nm = (other.nm * self) as i64`. -/
def i64_mulLength {T : LengthUnit} (self : Int) (other : Length T) :
    Length T :=
  ⟨wrap64 (other.nm * self)⟩

/-- Impl `Div<i64> for Length<T>`: `nm = self.nm / other` with Rust `i64`
division (truncation toward zero). -/
def Length.div_i64 {T : LengthUnit} (self : Length T) (other : Int) :
    Length T :=
  ⟨wrap64 (Int.tdiv self.nm other)⟩

/-- Impl `Div<Length<T>> for i64`: `nm = other.nm / self` — note the
dividend is the magnitude of the LENGTH and the divisor the scalar. -/
def i64_divLength {T : LengthUnit} (self : Int) (other : Length T) :
    Length T :=
  ⟨wrap64 (Int.tdiv other.nm self)⟩

/-- Impl `Mul<f64> for Length<T>` (macro `ImplMulandDivLengthAndNum!(f64)`):
`nm = ((self.nm as f64) * other) as i64`. -/
def Length.mul_f64 {T : LengthUnit} (self : Length T) (other : ℚ) :
    Length T :=
  ⟨sat64 ((self.nm : ℚ) * other)⟩

/-- Impl `Mul<Length<T>> for f64`: `nm = ((other.nm as f64) * self) as i64`. -/
def f64_mulLength {T : LengthUnit} (self : ℚ) (other : Length T) :
    Length T :=
  ⟨sat64 ((other.nm : ℚ) * self)⟩

/-- Impl `Div<f64> for Length<T>`: `nm = ((self.nm as f64) / other) as i64`. -/
def Length.div_f64 {T : LengthUnit} (self : Length T) (other : ℚ) :
    Length T :=
  ⟨sat64 ((self.nm : ℚ) / other)⟩

/-- Impl `Div<Length<T>> for f64`: `nm = ((other.nm as f64) / self) as i64`
— again the magnitude of the LENGTH is the dividend. -/
def f64_divLength {T : LengthUnit} (self : ℚ) (other : Length T) :
    Length T :=
  ⟨sat64 ((other.nm : ℚ) / self)⟩

/-- Rust `i64::cmp`: three-way comparison by `<`, `=`, `>`. -/
def i64_cmp (a b : Int) : Ordering :=
  if a < b then Ordering.lt else if a = b then Ordering.eq else Ordering.gt

/-- Impl `PartialEq<Length<T2>> for Length<T1>`: `self.nm == other.nm`. -/
def Length.eqb {T1 T2 : LengthUnit} (self : Length T1) (other : Length T2) :
    Bool :=
  self.nm == other.nm

/-- Impl `PartialOrd<Length<T2>> for Length<T1>`:
`Some(self.nm.cmp(&other.nm))`. -/
def Length.cmp {T1 T2 : LengthUnit} (self : Length T1)
    (other : Length T2) : Option Ordering :=
  some (i64_cmp self.nm other.nm)

/-- Derived Rust `<` on `PartialOrd`: `partial_cmp` yields `Less`. -/
def Length.ltb {T1 T2 : LengthUnit} (self : Length T1) (other : Length T2) :
    Bool :=
  Length.cmp self other == some Ordering.lt

/-- Derived Rust `>` on `PartialOrd`: `partial_cmp` yields `Greater`. -/
def Length.gtb {T1 T2 : LengthUnit} (self : Length T1) (other : Length T2) :
    Bool :=
  Length.cmp self other == some Ordering.gt

/-- Decimal rendering of the fraction `num / den` when its decimal
expansion terminates within 60 digits — the case for every value
displayed in this development.  Models the shortest round-trip `f64`
formatting of Rust on the quotient `num / den`, which on such values
prints exactly the terminating expansion with no trailing zeros and no
decimal point for integers. -/
def fmtF64 (num den : Int) : String :=
  match (List.range 61).find? (fun k => num * 10 ^ k % den == 0) with
  | some k =>
    let m : Int := num * 10 ^ k / den
    let sign := if m < 0 then "-" else ""
    let a : Nat := m.natAbs
    let ip : Nat := a / 10 ^ k
    let fp : Nat := a % 10 ^ k
    if k = 0 then sign ++ toString ip
    else
      let fs := toString fp
      let pad := String.mk (List.replicate (k - fs.length) '0')
      sign ++ toString ip ++ "." ++ pad ++ fs
  | none => toString num ++ "/" ++ toString den

/-- Impl `fmt::Display for Length<T>`: renders
`"<num_val> <singular_name><plural_s>"` where `num_val` is the `f64`
quotient `nm / num_nm_in_unit` and the plural `"s"` is dropped exactly
when `num_val` equals `1.0`. -/
def Length.display {T : LengthUnit} (self : Length T) : String :=
  let num_val : ℚ := (self.nm : ℚ) / (T.num_nm_in_unit : ℚ)
  let name_plural_s := if num_val = 1 then "" else "s"
  fmtF64 self.nm T.num_nm_in_unit ++ " " ++ T.singular_name ++ name_plural_s

/-- Exact rational value of the `f64` constant `std::f64::consts::PI`
(bit pattern `0x400921FB54442D18`). -/
def pi_f64 : ℚ := 884279719003555 / 281474976710656

/-- Function `circumference` of `src/example.rs`: `2 * r * PI`, which
elaborates as the `i64` scalar product `2 * r` followed by the `f64`
scalar product with `PI`, so the result keeps the unit tag of the input. -/
def circumference {T : LengthUnit} (r : Length T) : Length T :=
  Length.mul_f64 (i64_mulLength 2 r) pi_f64

/-- Shift-finding loop of `Length::sqrt`: starting from `shift`, step by
2 while `n >> shift` is nonzero and differs from `n`.  On return, `shift`
is the first stopping point (the source then subtracts 2). -/
def sqrtShift (n : Nat) (shift : Nat) : Nat :=
  if n >>> shift = 0 ∨ n >>> shift = n then shift
  else sqrtShift n (shift + 2)
termination_by n >>> shift
decreasing_by
  rename_i h
  push_neg at h
  simp only [Nat.shiftRight_eq_div_pow] at h ⊢
  have h4 : n / 2 ^ (shift + 2) = n / 2 ^ shift / 4 := by
    rw [Nat.div_div_eq_div_mul, pow_add]
    norm_num
  rw [h4]
  exact Nat.div_lt_self (Nat.pos_of_ne_zero h.1) (by omega)

/-- Digit loop of `Length::sqrt`: at each shift the running result is
doubled, and incremented when the incremented square still fits under
`n >> shift`; the shift then decreases by 2 and the loop stops once it
would go negative. -/
def sqrtDigits (n : Nat) (shift : Nat) (result : Nat) : Nat :=
  let r := result * 2
  let r1 := if (r + 1) * (r + 1) ≤ n >>> shift then r + 1 else r
  if 2 ≤ shift then sqrtDigits n (shift - 2) r1 else r1
termination_by shift
decreasing_by omega

/-- Method `Length::sqrt` of `src/example.rs`: a descriptive error on
negative magnitude, otherwise the digit-by-digit bitwise integer square
root of `nm`, retagged with the same unit. -/
def Length.sqrt {T : LengthUnit} (self : Length T) :
    Except String (Length T) :=
  if self.nm < 0 then
    Except.error "Can\x27t take sqrt of negative number"
  else
    Except.ok ⟨(sqrtDigits self.nm.toNat (sqrtShift self.nm.toNat 2 - 2) 0 : Nat)⟩

/-! Helper lemmas. -/

/-- Values already in the i64 range are fixed by `wrap64`. -/
theorem wrap64_eq_self {x : Int} (h : InI64 x) : wrap64 x = x := by
  unfold InI64 i64min i64max at h
  unfold wrap64
  omega

/-- Result of `wrap64` is always in the i64 range. -/
theorem wrap64_mem (x : Int) : InI64 (wrap64 x) := by
  unfold InI64 i64min i64max wrap64
  constructor <;> omega

/-- Difference between `wrap64 x` and `x` is a multiple of `2 ^ 64`. -/
theorem wrap64_sub_emod (x : Int) : (wrap64 x - x) % 2 ^ 64 = 0 := by
  unfold wrap64
  omega

/-- Characterization of `i64_cmp` testing equal to `Less`. -/
theorem i64_cmp_beq_lt {a b : Int} :
    (i64_cmp a b == Ordering.lt) = true ↔ a < b := by
  unfold i64_cmp
  split_ifs with h1 h2
  · exact iff_of_true rfl h1
  · exact iff_of_false (by decide) (by omega)
  · exact iff_of_false (by decide) h1

/-- Characterization of `i64_cmp` testing equal to `Greater`. -/
theorem i64_cmp_beq_gt {a b : Int} :
    (i64_cmp a b == Ordering.gt) = true ↔ b < a := by
  unfold i64_cmp
  split_ifs with h1 h2
  · exact iff_of_false (by decide) (by omega)
  · exact iff_of_false (by decide) (by omega)
  · exact iff_of_true rfl (by omega)

/-- Step lemma for the digit-by-digit square root: the square root of `m`
is twice the square root of `m / 4`, plus one exactly when the
square of the incremented candidate still fits under `m`. -/
theorem sqrt_step (m : Nat) :
    Nat.sqrt m =
      if (Nat.sqrt (m / 4) * 2 + 1) * (Nat.sqrt (m / 4) * 2 + 1) ≤ m then
        Nat.sqrt (m / 4) * 2 + 1
      else Nat.sqrt (m / 4) * 2 := by
  have h1 : Nat.sqrt (m / 4) * Nat.sqrt (m / 4) ≤ m / 4 := Nat.sqrt_le (m / 4)
  have h2 : m / 4 < (Nat.sqrt (m / 4) + 1) * (Nat.sqrt (m / 4) + 1) :=
    Nat.lt_succ_sqrt (m / 4)
  have hm4 : m / 4 * 4 ≤ m := Nat.div_mul_le_self m 4
  have hm4' : m < (m / 4 + 1) * 4 := by omega
  have hlow : Nat.sqrt (m / 4) * 2 * (Nat.sqrt (m / 4) * 2) ≤ m := by
    nlinarith
  have hhigh : m < (Nat.sqrt (m / 4) * 2 + 2) * (Nat.sqrt (m / 4) * 2 + 2) := by
    nlinarith
  split_ifs with h5
  · exact (Nat.eq_sqrt.mpr ⟨h5, by nlinarith⟩).symm
  · exact (Nat.eq_sqrt.mpr ⟨hlow, by omega⟩).symm

/-- Invariant of the digit loop: if the incoming candidate is the square
root of `n` shifted two positions past the current shift, the loop
computes the square root of `n` (for even shifts, as produced by the
shift-finding loop). -/
theorem sqrtDigits_spec (n : Nat) :
    ∀ s, Even s → ∀ result, result = Nat.sqrt (n / 2 ^ (s + 2)) →
      sqrtDigits n s result = Nat.sqrt n := by
  intro s
  induction s using Nat.strong_induction_on with
  | _ s ih =>
    intro hs result hres
    have hdiv : n / 2 ^ s / 4 = n / 2 ^ (s + 2) := by
      rw [Nat.div_div_eq_div_mul, pow_add]
      norm_num
    rw [sqrtDigits]
    have hr1 :
        (if (result * 2 + 1) * (result * 2 + 1) ≤ n >>> s then result * 2 + 1
          else result * 2) = Nat.sqrt (n / 2 ^ s) := by
      subst hres
      rw [Nat.shiftRight_eq_div_pow, sqrt_step (n / 2 ^ s), hdiv]
    simp only [hr1]
    split_ifs with h2
    · have hse : Even (s - 2) := by
        rw [Nat.even_iff] at hs ⊢
        omega
      have harg : s - 2 + 2 = s := by omega
      exact ih (s - 2) (by omega) hse _ (by rw [harg])
    · have hs0 : s = 0 := by
        rw [Nat.even_iff] at hs
        omega
      subst hs0
      rw [pow_zero, Nat.div_one]

/-- Specification of the shift-finding loop: starting at a positive
shift, it stops at a shift that clears `n` entirely, never decreases, and
keeps the parity of the shift. -/
theorem sqrtShift_spec (n : Nat) :
    ∀ s, 1 ≤ s →
      n >>> sqrtShift n s = 0 ∧ s ≤ sqrtShift n s ∧
        (Even s → Even (sqrtShift n s)) := by
  refine sqrtShift.induct n
    (fun s => 1 ≤ s →
      n >>> sqrtShift n s = 0 ∧ s ≤ sqrtShift n s ∧
        (Even s → Even (sqrtShift n s))) ?_ ?_
  · intro s h hs
    rw [sqrtShift, if_pos h]
    refine ⟨?_, le_refl s, fun he => he⟩
    rcases h with h | h
    · exact h
    · have hd : n / 2 ^ s = n := by rwa [Nat.shiftRight_eq_div_pow] at h
      have hn : n = 0 := by
        by_contra hn0
        have hp : 2 ≤ 2 ^ s := by
          calc 2 = 2 ^ 1 := rfl
          _ ≤ 2 ^ s := Nat.pow_le_pow_right (by omega) hs
        have := Nat.div_lt_self (Nat.pos_of_ne_zero hn0) (show 1 < 2 ^ s by omega)
        omega
      subst hn
      simp
  · intro s h ih _
    rw [sqrtShift, if_neg h]
    obtain ⟨h1, h2, h3⟩ := ih (by omega)
    refine ⟨h1, by omega, fun he => h3 ?_⟩
    rcases he with ⟨k, hk⟩
    exact ⟨k + 1, by omega⟩

/-- Correctness of the bitwise algorithm inside `Length::sqrt`: composed
as in the source (shift finding, two subtracted, digit loop from a zero
candidate), it computes exactly `Nat.sqrt`. -/
theorem sqrt_algorithm_correct (n : Nat) :
    sqrtDigits n (sqrtShift n 2 - 2) 0 = Nat.sqrt n := by
  obtain ⟨h0, h2, he⟩ := sqrtShift_spec n 2 (by omega)
  have hev : Even (sqrtShift n 2) := he ⟨1, rfl⟩
  have hev2 : Even (sqrtShift n 2 - 2) := by
    rw [Nat.even_iff] at hev ⊢
    omega
  apply sqrtDigits_spec n _ hev2
  have ht : sqrtShift n 2 - 2 + 2 = sqrtShift n 2 := by omega
  rw [ht]
  rw [Nat.shiftRight_eq_div_pow] at h0
  rw [h0]
  rfl

/-- Unfolding of `Length.display`: the pluralization condition is the
same quotient `to_f64` computes. -/
theorem display_eq {U : LengthUnit} (l : Length U) :
    Length.display l =
      fmtF64 l.nm U.num_nm_in_unit ++ " " ++ U.singular_name ++
        (if to_f64 l = 1 then "" else "s") := rfl

/-! Claim theorems. -/

/-- C1: equality and ordering of two Tagged Lengths are determined solely
by their `magnitude_nm` fields, whatever the two unit tags are; in
particular a length of `m` base units tagged `U1` equals a length of `m`
base units tagged `U2`. -/
theorem C1_comparison_ignores_units :
    ∀ (U1 U2 : LengthUnit) (l1 : Length U1) (l2 : Length U2),
      (Length.eqb l1 l2 = true ↔ l1.nm = l2.nm) ∧
      (Length.ltb l1 l2 = true ↔ l1.nm < l2.nm) ∧
      (Length.gtb l1 l2 = true ↔ l2.nm < l1.nm) ∧
      ∀ m : Int, Length.eqb (⟨m⟩ : Length U1) (⟨m⟩ : Length U2) = true := by
  intro U1 U2 l1 l2
  refine ⟨?_, ?_, ?_, fun m => ?_⟩
  · simp [Length.eqb]
  · exact i64_cmp_beq_lt
  · exact i64_cmp_beq_gt
  · simp [Length.eqb]

/-- C2 (amended): addition and subtraction act on magnitudes with the
i64 wraparound of the source arithmetic; whenever the exact sum or
difference fits in the i64 range, the result magnitude is exactly that
sum or difference; the unit tag of the result is the one of the left
operand (visible in the output type `Length U1`); and the two addition
orders always produce equal magnitudes, in particular for values built
by `from_number`. -/
theorem C2_add_sub_magnitudes :
    ∀ (U1 U2 : LengthUnit) (l1 : Length U1) (l2 : Length U2),
      (Length.add l1 l2).nm = wrap64 (l1.nm + l2.nm) ∧
      (Length.sub l1 l2).nm = wrap64 (l1.nm - l2.nm) ∧
      (InI64 (l1.nm + l2.nm) → (Length.add l1 l2).nm = l1.nm + l2.nm) ∧
      (InI64 (l1.nm - l2.nm) → (Length.sub l1 l2).nm = l1.nm - l2.nm) ∧
      (Length.add l1 l2).nm = (Length.add l2 l1).nm ∧
      ∀ a b : Int,
        (Length.add (from_i64 U1 a) (from_i64 U2 b)).nm =
          (Length.add (from_i64 U2 b) (from_i64 U1 a)).nm := by
  intro U1 U2 l1 l2
  refine ⟨rfl, rfl, fun h => wrap64_eq_self h, fun h => wrap64_eq_self h,
    ?_, fun a b => ?_⟩
  · show wrap64 (l1.nm + l2.nm) = wrap64 (l2.nm + l1.nm)
    rw [Int.add_comm]
  · show wrap64 _ = wrap64 _
    rw [Int.add_comm]

/-- C2 witness: the amended theorem applied to the lengths 10 mm and 5 m
of the driver, whose exact sum is in range. -/
theorem C2_add_sub_magnitudes_witness :
    (Length.add (from_i64 Millimeters 10) (from_i64 Meters 5)).nm =
      (from_i64 Millimeters 10).nm + (from_i64 Meters 5).nm :=
  (C2_add_sub_magnitudes Millimeters Meters (from_i64 Millimeters 10)
    (from_i64 Meters 5)).2.2.1 (by decide)

/-- C2 counterexample: two in-range lengths of `2 ^ 62` nm each add to
the wrapped magnitude `-2 ^ 63`, not to the exact sum `2 ^ 63`. -/
theorem C2_overflow_counterexample :
    InI64 (2 ^ 62 : Int) ∧
    (Length.add (⟨2 ^ 62⟩ : Length Meters)
        (⟨2 ^ 62⟩ : Length Millimeters)).nm = -(2 ^ 63) ∧
    (Length.add (⟨2 ^ 62⟩ : Length Meters)
        (⟨2 ^ 62⟩ : Length Millimeters)).nm ≠ (2 ^ 62 : Int) + 2 ^ 62 := by
  refine ⟨by decide, by decide, by decide⟩

/-- C3 (amended): whenever `n * U.scale_to_base` is within the i64 range
(with the positive scale every descriptor has), construction yields
`magnitude_nm = n * U.scale_to_base`, and extraction in the same unit
returns exactly `n`; the unqualified claim fails on i64 overflow. -/
theorem C3_roundtrip :
    ∀ (U : LengthUnit) (n : Int),
      0 < U.num_nm_in_unit → InI64 (n * U.num_nm_in_unit) →
      (from_i64 U n).nm = n * U.num_nm_in_unit ∧
      to_f64 (from_i64 U n) = ((n : Int) : ℚ) := by
  intro U n hU h
  have h1 : (from_i64 U n).nm = n * U.num_nm_in_unit := wrap64_eq_self h
  refine ⟨h1, ?_⟩
  unfold to_f64
  rw [h1]
  have hne : (U.num_nm_in_unit : ℚ) ≠ 0 := by
    exact_mod_cast hU.ne'
  push_cast
  rw [mul_div_assoc, div_self hne, mul_one]

/-- C3 witness: the round trip applied to 10 millimeters. -/
theorem C3_roundtrip_witness :
    (from_i64 Millimeters 10).nm = 10 * Millimeters.num_nm_in_unit ∧
    to_f64 (from_i64 Millimeters 10) = ((10 : Int) : ℚ) :=
  C3_roundtrip Millimeters 10 (by decide) (by decide)

/-- C3 counterexample: for `n = 10 ^ 7` in kilometers the product
`10 ^ 19` nm overflows i64, so the stored magnitude is the wrapped value
`10 ^ 19 - 2 ^ 64` and the round trip does not return `n`. -/
theorem C3_overflow_counterexample :
    (from_i64 Kilometers 10000000).nm ≠
      10000000 * Kilometers.num_nm_in_unit ∧
    (from_i64 Kilometers 10000000).nm = 10 ^ 19 - 2 ^ 64 ∧
    to_f64 (from_i64 Kilometers 10000000) ≠ ((10000000 : Int) : ℚ) := by
  refine ⟨by decide, by decide, ?_⟩
  unfold to_f64 from_i64 wrap64 Kilometers
  norm_num

/-- C4: division of a length by a length is the dimensionless rational
ratio of the magnitudes, whatever the unit tags, and any length with
nonzero magnitude divided by itself is exactly one. -/
theorem C4_div_length_identity :
    ∀ (U1 U2 : LengthUnit) (l1 : Length U1) (l2 : Length U2),
      Length.divLength l1 l2 = (l1.nm : ℚ) / (l2.nm : ℚ) ∧
      (l1.nm ≠ 0 → Length.divLength l1 l1 = 1) := by
  intro U1 U2 l1 l2
  refine ⟨rfl, fun h => ?_⟩
  unfold Length.divLength
  rw [div_self]
  exact_mod_cast h

/-- C4 witness: the division identity applied to the 5 m length of the
driver. -/
theorem C4_div_length_identity_witness :
    Length.divLength (from_i64 Meters 5) (from_i64 Meters 5) = 1 :=
  (C4_div_length_identity Meters Meters (from_i64 Meters 5)
    (from_i64 Meters 5)).2 (by decide)

/-- C5: circumference keeps the unit tag of the input and is computed as
`2 * radius * PI` through the scalar multiplications; on a 10 mm radius
the magnitude is exactly 62831853 nm and the value displays as
`"62.831853 millimeters"`. -/
theorem C5_circumference :
    (∀ (U : LengthUnit) (r : Length U),
      circumference r = Length.mul_f64 (i64_mulLength 2 r) pi_f64) ∧
    (circumference (from_i64 Millimeters 10)).nm = 62831853 ∧
    Length.display (circumference (from_i64 Millimeters 10)) =
      "62.831853 millimeters" := by
  have h1 : (i64_mulLength 2 (from_i64 Millimeters 10)).nm = 20000000 := by
    decide
  have hq : ((i64_mulLength 2 (from_i64 Millimeters 10)).nm : ℚ) * pi_f64 =
      17685594380071100000000 / 281474976710656 := by
    rw [h1]
    unfold pi_f64
    norm_num
  have htr : ratTrunc ((17685594380071100000000 : ℚ) / 281474976710656) =
      62831853 := by
    unfold ratTrunc
    rw [if_neg (by norm_num), Int.floor_eq_iff]
    constructor <;> norm_num
  have hnm : (circumference (from_i64 Millimeters 10)).nm = 62831853 := by
    show sat64 (((i64_mulLength 2 (from_i64 Millimeters 10)).nm : ℚ) * pi_f64)
      = 62831853
    rw [hq]
    unfold sat64
    rw [htr, if_neg (by decide), if_neg (by decide)]
  have hne1 : to_f64 (circumference (from_i64 Millimeters 10)) ≠ 1 := by
    unfold to_f64
    rw [hnm]
    norm_num [Millimeters]
  have hdisp : Length.display (circumference (from_i64 Millimeters 10)) =
      "62.831853 millimeters" := by
    rw [display_eq, if_neg hne1, hnm]
    decide
  exact ⟨fun U r => rfl, hnm, hdisp⟩

/-- C6: `Length::sqrt` fails with the descriptive message exactly when
the magnitude is negative; otherwise it succeeds with the same unit tag
and the floor integer square root of the magnitude: the result `r`
satisfies `r.nm * r.nm ≤ l.nm < (r.nm + 1) * (r.nm + 1)`. -/
theorem C6_sqrt_spec :
    ∀ (U : LengthUnit) (l : Length U),
      (l.nm < 0 →
        Length.sqrt l =
          Except.error "Can\x27t take sqrt of negative number") ∧
      (0 ≤ l.nm →
        Length.sqrt l =
          Except.ok (⟨(Nat.sqrt l.nm.toNat : Int)⟩ : Length U) ∧
        ∀ r : Length U, Length.sqrt l = Except.ok r →
          0 ≤ r.nm ∧ r.nm * r.nm ≤ l.nm ∧
            l.nm < (r.nm + 1) * (r.nm + 1)) := by
  intro U l
  constructor
  · intro h
    unfold Length.sqrt
    rw [if_pos h]
  · intro h
    have hok : Length.sqrt l =
        Except.ok (⟨(Nat.sqrt l.nm.toNat : Int)⟩ : Length U) := by
      unfold Length.sqrt
      rw [if_neg (not_lt.mpr h), sqrt_algorithm_correct]
    refine ⟨hok, fun r hr => ?_⟩
    rw [hok] at hr
    obtain rfl := (Except.ok.inj hr).symm
    have hm : ((l.nm.toNat : Nat) : Int) = l.nm := Int.toNat_of_nonneg h
    have h1 := Nat.sqrt_le l.nm.toNat
    have h2 := Nat.lt_succ_sqrt l.nm.toNat
    rw [Nat.succ_eq_add_one] at h2
    have h1c : ((Nat.sqrt l.nm.toNat : Int)) * (Nat.sqrt l.nm.toNat : Int) ≤
        ((l.nm.toNat : Nat) : Int) := by
      exact_mod_cast h1
    have h2c : ((l.nm.toNat : Nat) : Int) <
        ((Nat.sqrt l.nm.toNat : Int) + 1) * ((Nat.sqrt l.nm.toNat : Int) + 1) := by
      exact_mod_cast h2
    rw [hm] at h1c h2c
    exact ⟨Int.natCast_nonneg _, h1c, h2c⟩

/-- C6 witness: the specification applied at magnitudes 10 and -1. -/
theorem C6_sqrt_spec_witness :
    Length.sqrt (⟨10⟩ : Length Meters) = Except.ok (⟨3⟩ : Length Meters) ∧
    Length.sqrt (⟨-1⟩ : Length Meters) =
      Except.error "Can\x27t take sqrt of negative number" := by
  constructor
  · have h := ((C6_sqrt_spec Meters ⟨10⟩).2 (by decide)).1
    have hv : (⟨10⟩ : Length Meters).nm.toNat = 10 := rfl
    have h3 : Nat.sqrt 10 = 3 := (Nat.eq_sqrt.mpr (by norm_num)).symm
    rw [h, hv, h3]
    rfl
  · exact (C6_sqrt_spec Meters ⟨-1⟩).1 (by decide)

/-- C7: integer construction and addition are not overflow-checked: the
stored magnitude is always the reduction of the exact product or sum
into the i64 range modulo `2 ^ 64`, which for out-of-range results means
silent wraparound and never an error — exhibited concretely for
`from_number(10 ^ 7, Kilometer)` and for the sum `2 ^ 62 + 2 ^ 62`. -/
theorem C7_unchecked_overflow :
    (∀ (U : LengthUnit) (n : Int),
      (from_i64 U n).nm = wrap64 (n * U.num_nm_in_unit) ∧
      InI64 (from_i64 U n).nm ∧
      ((from_i64 U n).nm - n * U.num_nm_in_unit) % 2 ^ 64 = 0) ∧
    (∀ (U1 U2 : LengthUnit) (l1 : Length U1) (l2 : Length U2),
      (Length.add l1 l2).nm = wrap64 (l1.nm + l2.nm) ∧
      InI64 (Length.add l1 l2).nm ∧
      ((Length.add l1 l2).nm - (l1.nm + l2.nm)) % 2 ^ 64 = 0) ∧
    (from_i64 Kilometers 10000000).nm = 10 ^ 19 - 2 ^ 64 ∧
    (Length.add (⟨2 ^ 62⟩ : Length Meters) (⟨2 ^ 62⟩ : Length Meters)).nm =
      2 ^ 62 + 2 ^ 62 - 2 ^ 64 := by
  refine ⟨fun U n => ⟨rfl, wrap64_mem _, wrap64_sub_emod _⟩,
    fun U1 U2 l1 l2 => ⟨rfl, wrap64_mem _, wrap64_sub_emod _⟩,
    by decide, by decide⟩

/-- C8: display renders the numeric value (magnitude over scale), a
space, the singular unit name, and an `"s"` suffix that is omitted
exactly when the numeric value equals one; with the scenario strings of
the driver. -/
theorem C8_display_format :
    (∀ (U : LengthUnit) (l : Length U),
      Length.display l =
        fmtF64 l.nm U.num_nm_in_unit ++ " " ++ U.singular_name ++
          (if to_f64 l = 1 then "" else "s")) ∧
    (∀ (U : LengthUnit) (l : Length U),
      (Length.display l =
          fmtF64 l.nm U.num_nm_in_unit ++ " " ++ U.singular_name ↔
        to_f64 l = 1)) ∧
    Length.display (from_i64 Millimeters 10) = "10 millimeters" ∧
    Length.display (from_i64 Meters 5) = "5 meters" ∧
    Length.display (from_i64 Meters 1) = "1 meter" := by
  refine ⟨fun U l => display_eq l, fun U l => ?_, ?_, ?_, ?_⟩
  · constructor
    · intro heq
      by_contra hne
      rw [display_eq l, if_neg hne] at heq
      have hlen := congrArg String.length heq
      rw [String.length_append] at hlen
      have hs : "s".length = 1 := rfl
      omega
    · intro h1
      rw [display_eq l, if_pos h1]
      simp
  · have hne : to_f64 (from_i64 Millimeters 10) ≠ 1 := by
      have hv : (from_i64 Millimeters 10).nm = 10000000 := by decide
      unfold to_f64
      rw [hv]
      norm_num [Millimeters]
    rw [display_eq, if_neg hne]
    decide
  · have hne : to_f64 (from_i64 Meters 5) ≠ 1 := by
      have hv : (from_i64 Meters 5).nm = 5000000000 := by decide
      unfold to_f64
      rw [hv]
      norm_num [Meters]
    rw [display_eq, if_neg hne]
    decide
  · have heq1 : to_f64 (from_i64 Meters 1) = 1 := by
      have hv : (from_i64 Meters 1).nm = 1000000000 := by decide
      unfold to_f64
      rw [hv]
      norm_num [Meters]
    rw [display_eq, if_pos heq1]
    decide

/-- C9: dividing a scalar by a length (for both i64 and f64 scalars)
computes the magnitude of the LENGTH divided by the scalar — exactly the
same value as dividing the length by the scalar, and not the reciprocal
— shown also on a concrete input. -/
theorem C9_scalar_div_operand_order :
    (∀ (U : LengthUnit) (l : Length U) (s : Int),
      i64_divLength s l = Length.div_i64 l s) ∧
    (∀ (U : LengthUnit) (l : Length U) (q : ℚ),
      f64_divLength q l = Length.div_f64 l q ∧
      (f64_divLength q l).nm = sat64 ((l.nm : ℚ) / q)) ∧
    (i64_divLength 4 (from_i64 Meters 5)).nm = 1250000000 ∧
    (i64_divLength 4 (from_i64 Meters 5)).nm ≠
      wrap64 (Int.tdiv 4 (from_i64 Meters 5).nm) := by
  refine ⟨fun U l s => rfl, fun U l q => ⟨rfl, rfl⟩, by decide, by decide⟩

end LengthArith
